import Mathlib

/-!
Verification development for the badwolf BQL core: a shallow embedding of
the planner (`simpleFetch`, `addTriples`, `tripleToRow`, `updateTimeBounds`,
`updateTimeBoundsForRow`), the result table (`table.Table` and its
operations) and the predicate primitive (`predicate.Parse` / `String`),
together with theorems settling the specification claims about them.

Modelling conventions:
  * Go `time.Time` values are modelled as `Int` (nanoseconds since the
    epoch); `After`/`Before` are `>`/`<`.  The RFC3339Nano textual form of
    an anchor is abstracted by the injective decimal rendering
    `timeFormat` / `timeParse` (a round-tripping print/parse pair, as the
    Go time library provides for in-range times).
  * Go strings are modelled as `String` (or `List Char` where the code
    indexes into them); maps as association lists whose insert overwrites.
  * Go `nil` pointers become `Option.none`; a Go runtime panic (nil
    dereference, out-of-range slice index) is the `GoResult.fault` value.
  * Channels of triples become `List Triple`; the storage contract is the
    record `Graph` of lookup functions.
-/

namespace BadWolf

/-- Outcome of running a piece of Go code that may return normally, return
an error, or panic at runtime. -/
inductive GoResult (α : Type) where
  | ok (a : α)
  | err (e : String)
  | fault
  deriving DecidableEq, Repr

/-! ## Time model

Anchors are `Int` nanosecond timestamps.  `timeFormat`/`timeParse` model
the RFC3339Nano print/parse pair of the Go time library: an injective
rendering with `timeParse (timeFormat t) = some t`. -/

/-- Digit value of a character, inverse of `Nat.digitChar` on `0`-`9`. -/
def charVal (c : Char) : Option Nat :=
  if 48 ≤ c.toNat ∧ c.toNat ≤ 57 then some (c.toNat - 48) else none

/-- Digit values of a character list, or `none` if some character is not a
decimal digit. -/
def charsVals : List Char → Option (List Nat)
  | [] => some []
  | c :: cs =>
    match charVal c, charsVals cs with
    | some d, some ds => some (d :: ds)
    | _, _ => none

/-- Decimal rendering of a natural number, most significant digit first. -/
def natChars (n : Nat) : List Char :=
  if n = 0 then ['0'] else ((Nat.digits 10 n).reverse.map Nat.digitChar)

/-- Parse a nonempty all-digit character list as a natural number. -/
def natParse (cs : List Char) : Option Nat :=
  match cs, charsVals cs with
  | _ :: _, some ds => some (Nat.ofDigits 10 ds.reverse)
  | _, _ => none

/-- Textual form of a time anchor (model of RFC3339Nano formatting). -/
def timeFormat (t : Int) : List Char :=
  if t < 0 then '-' :: natChars (-t).toNat else natChars t.toNat

/-- Parse the textual form of a time anchor (model of RFC3339Nano
parsing). -/
def timeParse (cs : List Char) : Option Int :=
  match cs with
  | '-' :: rest => (natParse rest).map (fun (n : Nat) => -(n : Int))
  | _ => (natParse cs).map (fun (n : Nat) => (n : Int))

theorem charVal_digitChar {d : Nat} (h : d < 10) :
    charVal (Nat.digitChar d) = some d := by
  interval_cases d <;> decide

theorem digitChar_ne_dash {d : Nat} (h : d < 10) : Nat.digitChar d ≠ '-' := by
  interval_cases d <;> decide

theorem charsVals_map_digitChar {ds : List Nat} (h : ∀ d ∈ ds, d < 10) :
    charsVals (ds.map Nat.digitChar) = some ds := by
  induction ds with
  | nil => rfl
  | cons d ds ih =>
    have hd : d < 10 := h d (by simp)
    have hds : ∀ x ∈ ds, x < 10 := fun x hx => h x (by simp [hx])
    simp [charsVals, charVal_digitChar hd, ih hds]

theorem natChars_ne_nil (n : Nat) : natChars n ≠ [] := by
  unfold natChars
  split
  · simp
  · have : Nat.digits 10 n ≠ [] := Nat.digits_ne_nil_iff_ne_zero.mpr (by assumption)
    simp [this]

theorem natParse_natChars (n : Nat) : natParse (natChars n) = some n := by
  by_cases h0 : n = 0
  · subst h0; rfl
  · have hlt : ∀ d ∈ (Nat.digits 10 n).reverse, d < 10 := by
      intro d hd
      exact Nat.digits_lt_base (by norm_num) (List.mem_reverse.mp hd)
    have hne : Nat.digits 10 n ≠ [] := Nat.digits_ne_nil_iff_ne_zero.mpr h0
    have hchars : natChars n = (Nat.digits 10 n).reverse.map Nat.digitChar := by
      simp [natChars, h0]
    rw [hchars]
    obtain ⟨d, ds, hds⟩ := List.exists_cons_of_ne_nil
      (by simpa using (List.reverse_eq_nil_iff.not.mpr hne) :
        (Nat.digits 10 n).reverse ≠ [])
    rw [hds]
    have hvals : charsVals ((d :: ds).map Nat.digitChar) = some (d :: ds) := by
      apply charsVals_map_digitChar
      intro x hx; exact hlt x (hds ▸ hx)
    simp only [List.map_cons, natParse]
    rw [show ((d :: ds).map Nat.digitChar) = Nat.digitChar d :: ds.map Nat.digitChar
      from rfl] at hvals
    simp only [hvals]
    have : (d :: ds).reverse = Nat.digits 10 n := by
      rw [← hds]; exact List.reverse_reverse _
    rw [this, Nat.ofDigits_digits]

theorem natChars_head_not_dash (n : Nat) :
    ∀ c rest, natChars n = c :: rest → c ≠ '-' := by
  intro c rest h
  unfold natChars at h
  split at h
  · cases h; decide
  · rename_i hn
    have hne : Nat.digits 10 n ≠ [] := Nat.digits_ne_nil_iff_ne_zero.mpr hn
    obtain ⟨d, ds, hds⟩ := List.exists_cons_of_ne_nil
      (by simpa using (List.reverse_eq_nil_iff.not.mpr hne) :
        (Nat.digits 10 n).reverse ≠ [])
    rw [hds] at h
    simp only [List.map_cons, List.cons.injEq] at h
    have hd : d < 10 := Nat.digits_lt_base (by norm_num)
      (List.mem_reverse.mp (hds ▸ List.mem_cons_self d ds))
    rw [← h.1]
    exact digitChar_ne_dash hd

theorem timeParse_not_dash (c : Char) (rest : List Char) (h : c ≠ '-') :
    timeParse (c :: rest) = (natParse (c :: rest)).map (fun (n : Nat) => (n : Int)) := by
  unfold timeParse
  split
  · rename_i heq
    injection heq with h1 h2
    exact absurd h1 h
  · rfl

theorem timeParse_timeFormat (t : Int) : timeParse (timeFormat t) = some t := by
  by_cases ht : t < 0
  · have h1 : timeFormat t = '-' :: natChars (-t).toNat := by simp [timeFormat, ht]
    have h2 : timeParse ('-' :: natChars (-t).toNat)
        = (natParse (natChars (-t).toNat)).map (fun (n : Nat) => -(n : Int)) := rfl
    rw [h1, h2, natParse_natChars]
    simp only [Option.map_some', Option.some.injEq]
    omega
  · have hfmt : timeFormat t = natChars t.toNat := by simp [timeFormat, ht]
    rw [hfmt]
    obtain ⟨c, rest, hcr⟩ := List.exists_cons_of_ne_nil (natChars_ne_nil t.toNat)
    have hnd : c ≠ '-' := natChars_head_not_dash t.toNat c rest hcr
    rw [hcr]
    have hparse : natParse (c :: rest) = some t.toNat := hcr ▸ natParse_natChars t.toNat
    rw [timeParse_not_dash c rest hnd, hparse]
    simp only [Option.map_some', Option.some.injEq]
    omega

/-! ## Lexical primitives: Node, Literal, Object, Predicate, Triple -/

/-- Modelled from the spec: the `triple/node` package is not under `src/`;
per the spec a node is an identity `(type, id)` with textual form
`/t<id>`, immutable once constructed. -/
structure Node where
  typ : String
  id : String
  deriving DecidableEq, Repr

/-- Textual form of a node, `/t<id>` per the spec. -/
def Node.render (n : Node) : String := n.typ ++ "<" ++ n.id ++ ">"

/-- Modelled from the spec: the `triple/literal` package is not under
`src/`; a literal is a typed scalar, kept opaque here with its textual
form. -/
structure Literal where
  text : String
  deriving DecidableEq, Repr

/-- Predicate: tagged as immutable (`anchor = none`) or temporal
(`anchor = some t`), mirroring the `id`/`anchor` fields of
`predicate.Predicate`. -/
structure Predicate where
  id : String
  anchor : Option Int
  deriving DecidableEq, Repr

/-- The two predicate types of `predicate.Type`. -/
inductive PType where
  | Immutable
  | Temporal
  deriving DecidableEq, Repr

/-- Embedding of `Predicate.Type`: immutable iff the anchor is nil. -/
def Predicate.ptype (p : Predicate) : PType :=
  match p.anchor with
  | none => .Immutable
  | some _ => .Temporal

/-- Embedding of `Predicate.TimeAnchor`: the anchor, or an error for an
immutable predicate. -/
def Predicate.TimeAnchor (p : Predicate) : Except String Int :=
  match p.anchor with
  | none => .error "predicate.TimeAnchor cannot return anchor for immutable predicate"
  | some t => .ok t

/-- Modelled from the spec: the `triple` package is not under `src/`; an
object is the tagged sum over node, predicate and literal. -/
inductive Object where
  | node (n : Node)
  | pred (p : Predicate)
  | lit (l : Literal)
  deriving DecidableEq, Repr

/-- Embedding of `Object.Node`: the node, or an error. -/
def Object.NodeVal : Object → Except String Node
  | .node n => .ok n
  | _ => .error "object is not a node"

/-- Embedding of `Object.Predicate`: the predicate, or an error. -/
def Object.PredVal : Object → Except String Predicate
  | .pred p => .ok p
  | _ => .error "object is not a predicate"

/-- Modelled from the spec: a triple is the product of subject, predicate
and object, immutable after construction (`triple.New` of the `triple`
package, not under `src/`, validates nothing the model can fail on). -/
structure Triple where
  S : Node
  P : Predicate
  O : Object
  deriving DecidableEq, Repr

/-! ## The predicate textual form: `String` and `Parse` (predicate.go) -/

/-- Escape of a single character under the `%q` verb of the Go fmt
package (strconv.Quote): quote and backslash get a backslash prefix; the
seven named control escapes; a lowercase `\\x` hex escape for the other
ASCII control characters and DEL; printable ASCII stays verbatim.
Characters above 0x7F are rendered with the `\\u` escape strconv.Quote
uses for non-printable runes; Go leaves *printable* non-ASCII runes
verbatim instead, so every theorem below restricts predicate ids to
printable ASCII, where this model agrees with strconv.Quote exactly. -/
def goEscapeChar (c : Char) : List Char :=
  if c = '"' ∨ c = '\\' then ['\\', c]
  else if c = '\x07' then ['\\', 'a']
  else if c = '\x08' then ['\\', 'b']
  else if c = '\x0C' then ['\\', 'f']
  else if c = '\n' then ['\\', 'n']
  else if c = '\r' then ['\\', 'r']
  else if c = '\t' then ['\\', 't']
  else if c = '\x0B' then ['\\', 'v']
  else if c.toNat < 0x20 ∨ c.toNat = 0x7F then
    ['\\', 'x', Nat.digitChar (c.toNat / 16 % 16), Nat.digitChar (c.toNat % 16)]
  else if 0x7F < c.toNat then
    ['\\', 'u', Nat.digitChar (c.toNat / 4096 % 16), Nat.digitChar (c.toNat / 256 % 16),
      Nat.digitChar (c.toNat / 16 % 16), Nat.digitChar (c.toNat % 16)]
  else [c]

/-- The `%q` verb of the Go fmt package: the escaped text in double
quotes. -/
def goQuote (l : List Char) : List Char :=
  '"' :: l.flatMap goEscapeChar ++ ['"']

/-- Embedding of `Predicate.String`: `"id"@[]` for an immutable
predicate, `"id"@[anchor]` for a temporal one, with `%q` quoting of the
id. -/
def Predicate.render (p : Predicate) : List Char :=
  goQuote p.id.toList ++ '@' :: '[' ::
    ((match p.anchor with
      | none => []
      | some t => timeFormat t) ++ [']'])

/-- Whitespace predicate for the model of `strings.TrimSpace` (the ASCII
white-space characters; predicate texts never contain the remaining
unicode space classes). -/
def isWsp (c : Char) : Bool :=
  c = ' ' ∨ c = '\t' ∨ c = '\n' ∨ c = '\r'

/-- Model of `strings.TrimSpace` on character lists. -/
def trimSpace (l : List Char) : List Char :=
  ((l.dropWhile isWsp).reverse.dropWhile isWsp).reverse

/-- Model of `strings.Index`: position of the first occurrence of `pat`,
or `none`. -/
def strIndex (pat : List Char) : List Char → Option Nat
  | [] => if pat = [] then some 0 else none
  | c :: rest =>
    if pat.isPrefixOf (c :: rest) then some 0
    else (strIndex pat rest).map (· + 1)

/-- Embedding of `predicate.Parse`.  Slice expressions that would panic in
Go (`raw[1:idx]` with `idx = 0`; `raw[idx+3:len(raw)-1]` with the anchor
pattern at the very end; indexing an anchor text emptied by quote
stripping) are `GoResult.fault`. -/
def Predicate.Parse (s : List Char) : GoResult Predicate :=
  let raw := trimSpace s
  if raw = [] then
    .err "predicate.Parse cannot create predicate from empty string"
  else if raw.head? ≠ some '"' then
    .err "predicate.Parse failed to parse since string does not start with quote"
  else
    match strIndex ['"', '@', '['] raw with
    | none => .err "predicate.Parse could not find anchor definition"
    | some idx =>
      if idx < 1 then .fault
      else if idx + 3 + 1 > raw.length then .fault
      else
        let id : String := String.mk ((raw.drop 1).take (idx - 1))
        let ta : List Char := (raw.drop (idx + 3)).take (raw.length - 1 - (idx + 3))
        if ta = [] then .ok { id := id, anchor := none }
        else
          let ta := if ta.head? = some '"' then ta.tail else ta
          match ta.getLast? with
          | none => .fault
          | some last =>
            let ta := if last = '"' then ta.dropLast else ta
            match timeParse ta with
            | none => .err "predicate.Parse failed to parse time anchor"
            | some t => .ok { id := id, anchor := some t }

/-! ## Round-trip lemmas for the predicate textual form -/

/-- Ids whose `%q` quoting is the identity: every character is printable
ASCII (0x20-0x7E) other than the double quote and the backslash — exactly
the characters the `%q` verb renders verbatim — and the id does not begin
with the anchor-opening pair `@[` (which would make `strings.Index` find
the pattern at position 0 and the slice `raw[1:0]` panic). -/
def OkId (l : List Char) : Prop :=
  (∀ c ∈ l, 0x20 ≤ c.toNat ∧ c.toNat ≤ 0x7E ∧ c ≠ '"' ∧ c ≠ '\\') ∧
  ¬ (['@', '['].isPrefixOf l)

theorem goEscapeChar_plain {c : Char} (h1 : 0x20 ≤ c.toNat) (h2 : c.toNat ≤ 0x7E)
    (h3 : c ≠ '"') (h4 : c ≠ '\\') : goEscapeChar c = [c] := by
  have k0 : ¬(c = '"' ∨ c = '\\') := by
    rintro (rfl | rfl)
    · exact h3 rfl
    · exact h4 rfl
  have k7 : c ≠ '\x07' := by rintro rfl; revert h1; decide
  have k8 : c ≠ '\x08' := by rintro rfl; revert h1; decide
  have kC : c ≠ '\x0C' := by rintro rfl; revert h1; decide
  have kn : c ≠ '\n' := by rintro rfl; revert h1; decide
  have kr : c ≠ '\r' := by rintro rfl; revert h1; decide
  have kt : c ≠ '\t' := by rintro rfl; revert h1; decide
  have kB : c ≠ '\x0B' := by rintro rfl; revert h1; decide
  have kx : ¬(c.toNat < 0x20 ∨ c.toNat = 0x7F) := by omega
  have ku : ¬(0x7F < c.toNat) := by omega
  simp [goEscapeChar, k0, k7, k8, kC, kn, kr, kt, kB, kx, ku]

theorem flatMap_goEscapeChar {l : List Char}
    (h : ∀ c ∈ l, 0x20 ≤ c.toNat ∧ c.toNat ≤ 0x7E ∧ c ≠ '"' ∧ c ≠ '\\') :
    l.flatMap goEscapeChar = l := by
  induction l with
  | nil => rfl
  | cons c cs ih =>
    have hc := h c (by simp)
    have hcs : ∀ x ∈ cs, 0x20 ≤ x.toNat ∧ x.toNat ≤ 0x7E ∧ x ≠ '"' ∧ x ≠ '\\' :=
      fun x hx => h x (by simp [hx])
    simp [goEscapeChar_plain hc.1 hc.2.1 hc.2.2.1 hc.2.2.2, ih hcs]

theorem goQuote_plain {l : List Char}
    (h : ∀ c ∈ l, 0x20 ≤ c.toNat ∧ c.toNat ≤ 0x7E ∧ c ≠ '"' ∧ c ≠ '\\') :
    goQuote l = '"' :: l ++ ['"'] := by
  simp [goQuote, flatMap_goEscapeChar h]

theorem trimSpace_of_ends (a b : Char) (xs : List Char)
    (ha : isWsp a = false) (hb : isWsp b = false) :
    trimSpace (a :: xs ++ [b]) = a :: xs ++ [b] := by
  simp [trimSpace, List.dropWhile_cons, ha, hb]

theorem strIndex_cons (pat : List Char) (c : Char) (rest : List Char) :
    strIndex pat (c :: rest)
      = if pat.isPrefixOf (c :: rest) then some 0
        else (strIndex pat rest).map (· + 1) := rfl

theorem strIndex_shift {l rest : List Char} (h : ∀ c ∈ l, c ≠ '"') :
    strIndex ['"', '@', '['] (l ++ rest)
      = (strIndex ['"', '@', '['] rest).map (· + l.length) := by
  induction l with
  | nil => cases hsi : strIndex ['"', '@', '['] rest <;> simp [hsi]
  | cons c cs ih =>
    have hc : c ≠ '"' := h c (by simp)
    have hcs : ∀ x ∈ cs, x ≠ '"' := fun x hx => h x (by simp [hx])
    have hnp : (['"', '@', '['].isPrefixOf (c :: (cs ++ rest))) = false := by
      simp [List.isPrefixOf]
      intro h1
      exact absurd h1.symm hc
    rw [List.cons_append, strIndex_cons, hnp]
    simp only [Bool.false_eq_true, if_false, ih hcs]
    cases hsi : strIndex ['"', '@', '['] rest
    · simp [hsi]
    · simp [hsi, Nat.add_assoc]

theorem strIndex_render (id rest : List Char)
    (hq : ∀ c ∈ id, c ≠ '"') (hpre : ¬ (['@', '['].isPrefixOf id)) :
    strIndex ['"', '@', '['] ('"' :: id ++ '"' :: '@' :: '[' :: rest)
      = some (id.length + 1) := by
  have htail : (['@', '['].isPrefixOf (id ++ '"' :: '@' :: '[' :: rest)) = false := by
    match id with
    | [] => simp [List.isPrefixOf]
    | [c] => simp [List.isPrefixOf]
    | c1 :: c2 :: tl =>
      simp only [List.isPrefixOf, Bool.not_eq_true] at hpre ⊢
      simpa using hpre
  have hnp : (['"', '@', '['].isPrefixOf ('"' :: (id ++ '"' :: '@' :: '[' :: rest))) = false := by
    simpa [List.isPrefixOf] using htail
  rw [List.cons_append, strIndex_cons, hnp]
  simp only [Bool.false_eq_true, if_false]
  rw [strIndex_shift hq]
  have h0 : strIndex ['"', '@', '['] ('"' :: '@' :: '[' :: rest) = some 0 := by
    rw [strIndex_cons, if_pos]
    simp [List.isPrefixOf]
  rw [h0]
  simp [Nat.add_comm]

theorem natChars_mem_ne (n : Nat) : ∀ c ∈ natChars n, c ≠ '"' ∧ c ≠ '-' := by
  intro c hc
  unfold natChars at hc
  split at hc
  · simp at hc; subst hc; decide
  · simp only [List.mem_map] at hc
    obtain ⟨d, hd, rfl⟩ := hc
    have hd10 : d < 10 := Nat.digits_lt_base (by norm_num) (List.mem_reverse.mp hd)
    constructor
    · interval_cases d <;> decide
    · exact digitChar_ne_dash hd10

theorem timeFormat_mem_ne_quote (t : Int) : ∀ c ∈ timeFormat t, c ≠ '"' := by
  intro c hc
  unfold timeFormat at hc
  split at hc
  · rcases List.mem_cons.mp hc with h | h
    · subst h; decide
    · exact (natChars_mem_ne _ c h).1
  · exact (natChars_mem_ne _ c hc).1

theorem mem_of_getLast?_eq {l : List Char} {c : Char} (h : l.getLast? = some c) :
    c ∈ l := by
  obtain ⟨hne, rfl⟩ := List.mem_getLast?_eq_getLast (l := l) (x := c) (by simp [h])
  exact List.getLast_mem hne


theorem timeFormat_ne_nil (t : Int) : timeFormat t ≠ [] := by
  unfold timeFormat
  split
  · simp
  · exact natChars_ne_nil _

theorem String_mk_toList (s : String) : String.mk s.toList = s := rfl

/-- C6 amended: `Parse` composed with `String` is the identity on every
predicate, immutable or temporal, whose id consists solely of characters
the `%q` quoting renders verbatim — printable ASCII other than the double
quote and the backslash — and does not begin with the anchor-opening pair
`@[`. -/
theorem Predicate_Parse_render (p : Predicate) (h : OkId p.id.toList) :
    Predicate.Parse (Predicate.render p) = .ok p := by
  obtain ⟨hq2, hpre⟩ := h
  have hq : ∀ c ∈ p.id.toList, c ≠ '"' := fun c hc => (hq2 c hc).2.2.1
  set id := p.id.toList with hid
  set anc : List Char := (match p.anchor with
      | none => []
      | some t => timeFormat t) with hanc
  have hform : Predicate.render p = '"' :: id ++ '"' :: '@' :: '[' :: (anc ++ [']']) := by
    rw [Predicate.render, goQuote_plain hq2]
    simp
  have hform2 : Predicate.render p = '"' :: (id ++ '"' :: '@' :: '[' :: anc) ++ [']'] := by
    rw [hform]; simp
  have htrim : trimSpace (Predicate.render p) = Predicate.render p := by
    rw [hform2, trimSpace_of_ends _ _ _ (by decide) (by decide)]
  have hsi : strIndex ['"', '@', '['] (Predicate.render p) = some (id.length + 1) := by
    rw [hform]
    exact strIndex_render id (anc ++ [']']) hq hpre
  have hlen : (Predicate.render p).length = id.length + anc.length + 5 := by
    rw [hform]; simp; omega
  have h1 : ¬(Predicate.render p = []) := by rw [hform]; simp
  have hhead : (Predicate.render p).head? = some '"' := by rw [hform]; rfl
  have h3 : ¬(id.length + 1 < 1) := by omega
  have h4 : ¬(id.length + 1 + 3 + 1 > (Predicate.render p).length) := by
    rw [hlen]; omega
  have hdropid : ((Predicate.render p).drop 1).take (id.length + 1 - 1) = id := by
    rw [hform, Nat.add_sub_cancel]
    exact List.take_left id _
  have hta : ((Predicate.render p).drop (id.length + 1 + 3)).take
      ((Predicate.render p).length - 1 - (id.length + 1 + 3)) = anc := by
    have hsplit : Predicate.render p
        = ('"' :: id ++ ['"', '@', '[']) ++ (anc ++ [']']) := by
      rw [hform]; simp
    rw [hsplit, List.drop_left'
      (by simp)]
    rw [List.take_left' ?hl]
    case hl =>
      rw [← hsplit, hlen]
      omega
  simp only [Predicate.Parse, htrim, hsi, h1, hhead, h3, h4, hdropid, hta]
  simp only [if_neg (fun hf : False => hf), ne_eq, not_true_eq_false,
    Bool.false_eq_true, if_false]
  cases hp : p.anchor with
  | none =>
    have hancnil : anc = [] := by rw [hanc, hp]
    rw [hancnil, if_pos rfl, hid, String_mk_toList, ← hp]
  | some t =>
    have hancT : anc = timeFormat t := by rw [hanc, hp]
    rw [hancT]
    rw [if_neg (timeFormat_ne_nil t)]
    have hhead2 : ¬((timeFormat t).head? = some '"') := by
      cases hcr : (timeFormat t).head? with
      | none => simp
      | some c =>
        have hmem : c ∈ timeFormat t := List.mem_of_mem_head? (by simp [hcr])
        have := timeFormat_mem_ne_quote t c hmem
        simp [this]
    rw [if_neg hhead2]
    cases hgl : (timeFormat t).getLast? with
    | none =>
      exact absurd (by simpa using hgl) (timeFormat_ne_nil t)
    | some last =>
      simp only [hgl]
      have hmem : last ∈ timeFormat t := mem_of_getLast?_eq hgl
      have hlast : last ≠ '"' := timeFormat_mem_ne_quote t last hmem
      rw [if_neg hlast]
      rw [timeParse_timeFormat]
      show GoResult.ok { id := String.mk id, anchor := some t } = GoResult.ok p
      rw [hid, String_mk_toList, ← hp]

/-! ## Result table (bql/table/table.go) -/

/-- Embedding of `table.Cell`: one of the possible values that form rows
(zero values of the remaining fields model the Go zero value). -/
structure Cell where
  S : String := ""
  N : Option Node := none
  P : Option Predicate := none
  L : Option Literal := none
  T : Option Int := none
  deriving DecidableEq, Repr

/-- Embedding of `Cell.String`: first populated field in the order
S, N, P, L, T; `<NULL>` when all are empty. -/
def Cell.render (c : Cell) : String :=
  if c.S ≠ "" then c.S
  else match c.N with
  | some n => n.render
  | none => match c.P with
    | some p => String.mk p.render
    | none => match c.L with
      | some l => l.text
      | none => match c.T with
        | some t => String.mk (timeFormat t)
        | none => "<NULL>"

/-- Embedding of `table.Row`, a map from binding name to cell
(`map[string]*Cell`), as an association list whose insert overwrites. -/
abbrev Row := List (String × Cell)

/-- Map lookup on a row. -/
def Row.find : Row → String → Option Cell
  | [], _ => none
  | (k, v) :: r, key => if k = key then some v else Row.find r key

/-- Map store on a row (`r[k] = v`): overwrite the binding if present,
append it otherwise. -/
def Row.insert : Row → String → Cell → Row
  | [], k, v => [(k, v)]
  | (k0, v0) :: r, k, v =>
    if k0 = k then (k0, v) :: r else (k0, v0) :: Row.insert r k v

/-- Embedding of `table.Table`: binding list `bs`, presence set `mbs`
(the key set of the Go `map[string]bool`) and the rows. -/
structure Table where
  bs : List String
  mbs : List String
  data : List Row
  deriving DecidableEq, Repr

/-- Set insert for the model of `map[string]bool`: add the key if
absent. -/
def setAdd (m : List String) (b : String) : List String :=
  if b ∈ m then m else m ++ [b]

/-- Fold of `setAdd`, the model of `for _, b := range bs { m[b] = true }`. -/
def setAddAll (m : List String) : List String → List String
  | [] => m
  | b :: bs => setAddAll (setAdd m b) bs

/-- Embedding of `table.New`: fails iff building the presence set loses
elements, i.e. iff `bs` has duplicates. -/
def Table.New (bs : List String) : Except String Table :=
  let m := setAddAll [] bs
  if m.length ≠ bs.length then
    .error "table.New does not allow duplicated bindings"
  else .ok { bs := bs, mbs := m, data := [] }

/-- Embedding of `Table.AddRow`: append, no validation. -/
def Table.AddRow (t : Table) (r : Row) : Table :=
  { t with data := t.data ++ [r] }

/-- Embedding of `Table.NumRows`. -/
def Table.NumRows (t : Table) : Int := (t.data.length : Int)

/-- Embedding of `Table.Row`: `(nil, false)` for `i >= len(t.data)`,
otherwise the Go code indexes `t.data[i]`, which panics for `i < 0`. -/
def Table.RowAt (t : Table) (i : Int) : GoResult (Option Row × Bool) :=
  if i ≥ (t.data.length : Int) then .ok (none, false)
  else if i < 0 then .fault
  else .ok (t.data.get? i.toNat, true)

/-- Embedding of `Table.Rows`. -/
def Table.Rows (t : Table) : List Row := t.data

/-- Embedding of `Table.AddBindings`: append each novel name to the
binding list and the presence set; names already present are skipped. -/
def Table.AddBindings (t : Table) : List String → Table
  | [] => t
  | b :: rest =>
    Table.AddBindings
      (if b ∈ t.mbs then t
       else { t with mbs := t.mbs ++ [b], bs := t.bs ++ [b] }) rest

/-- Embedding of `Table.HasBinding`. -/
def Table.HasBinding (t : Table) (b : String) : Bool := b ∈ t.mbs

/-- Embedding of `Table.Bindings`. -/
def Table.Bindings (t : Table) : List String := t.bs

/-- Inner loop of `Row.ToTextLine`: write each cell (or `<NULL>` when the
binding is absent), then the separator while the remaining count is
positive. -/
def toTextLineAux (r : Row) (sep : String) : List String → String
  | [] => ""
  | b :: rest =>
    (match Row.find r b with
     | some c => Cell.render c
     | none => "<NULL>")
      ++ (if rest.length > 0 then sep else "") ++ toTextLineAux r sep rest

/-- Embedding of `Row.ToTextLine`: an empty separator falls back to a
tab.  (The Go version writes into a `bytes.Buffer`, whose writes cannot
fail, so the error return is omitted.) -/
def Row.ToTextLine (r : Row) (bs : List String) (sep : String) : String :=
  toTextLineAux r (if sep = "" then "\t" else sep) bs

/-- Model of `strings.Join`: the elements separated by `sep`. -/
def strJoin (sep : String) : List String → String
  | [] => ""
  | [x] => x
  | x :: xs => x ++ sep ++ strJoin sep xs

/-- Embedding of `Table.ToText`: the bindings joined with `sep`, a
newline, then one `ToTextLine` line per row, each followed by a
newline. -/
def Table.ToText (t : Table) (sep : String) : String :=
  strJoin sep t.bs ++ "\n"
    ++ String.join (t.data.map (fun r => Row.ToTextLine r t.bs sep ++ "\n"))

/-- Embedding of `equalBindings` on presence sets. -/
def equalBindings (b1 b2 : List String) : Bool :=
  b1.length == b2.length && b1.all (fun k => b2.contains k)

/-- Embedding of `Table.AppendTable`: adopt the bindings when this table
has none, fail when both are nonempty and differ as sets. -/
def Table.AppendTable (t t2 : Table) : Except String Table :=
  if t.Bindings.length > 0 && !(equalBindings t.mbs t2.mbs) then
    .error "AppendTable can only append to an empty table or equally binded table"
  else
    let t' := if t.Bindings.length = 0 then { t with bs := t2.bs, mbs := t2.mbs } else t
    .ok { t' with data := t'.data ++ t2.data }

/-- Embedding of `disjointBinding`: no key occurs in both presence
sets. -/
def disjointBinding (b1 b2 : List String) : Bool :=
  b1.all (fun k => !(b2.contains k))

/-- Embedding of `table.MergeRows`: write every binding of every row into
a fresh row, later rows overwriting earlier ones. -/
def MergeRows (ms : List Row) : Row :=
  ms.foldl (fun res om => om.foldl (fun res kv => Row.insert res kv.1 kv.2) res) []

/-- Embedding of `Table.DotProduct`: requires disjoint presence sets,
rebuilds the bindings as the union, and replaces the data with the
pairwise merged rows. -/
def Table.DotProduct (t t2 : Table) : Except String Table :=
  if !(disjointBinding t.mbs t2.mbs) then
    .error "DotProduct operations requires disjoint bindings"
  else
    let m := setAddAll (setAddAll [] t.mbs) t2.mbs
    .ok { bs := m, mbs := m,
          data := t.data.flatMap (fun r1 => t2.data.map (fun r2 => MergeRows [r1, r2])) }

/-- Embedding of `Table.DeleteRow`: out-of-range indices leave the data
unchanged and report an error (returned here alongside the table to make
the no-mutation explicit). -/
def Table.DeleteRow (t : Table) (i : Int) : Table × Option String :=
  if i < 0 ∨ i ≥ (t.data.length : Int) then
    (t, some "cannot delete row out of range")
  else
    ({ t with data := t.data.take i.toNat ++ t.data.drop (i.toNat + 1) }, none)

/-- Embedding of `Table.Truncate`. -/
def Table.Truncate (t : Table) : Table := { t with data := [] }

/-! ## Planner (the planner package fetch path) -/

/-- Embedding of `storage.LookupOptions`. -/
structure LookupOptions where
  MaxElements : Int := 0
  LowerAnchor : Option Int := none
  UpperAnchor : Option Int := none
  deriving DecidableEq, Repr

/-- Embedding of `semantic.GraphClause` (the fields the planner reads;
zero values model the Go zero value). -/
structure GraphClause where
  S : Option Node := none
  SBinding : String := ""
  SAlias : String := ""
  STypeAlias : String := ""
  SIDAlias : String := ""
  P : Option Predicate := none
  PID : String := ""
  PBinding : String := ""
  PAlias : String := ""
  PIDAlias : String := ""
  PAnchorBinding : String := ""
  PAnchorAlias : String := ""
  PLowerBound : Option Int := none
  PUpperBound : Option Int := none
  PLowerBoundAlias : String := ""
  PUpperBoundAlias : String := ""
  PTemporal : Bool := false
  O : Option Object := none
  OID : String := ""
  OBinding : String := ""
  OAlias : String := ""
  OTypeAlias : String := ""
  OIDAlias : String := ""
  OAnchorBinding : String := ""
  OAnchorAlias : String := ""
  OLowerBound : Option Int := none
  OUpperBound : Option Int := none
  OLowerBoundAlias : String := ""
  OUpperBoundAlias : String := ""
  OTemporal : Bool := false
  deriving DecidableEq, Repr

/-- Modelled from the spec: `semantic.GraphClause.Bindings` is not under
`src/`; per the spec it returns the set of binding variable names
appearing in the clause (here: the nonempty binding and alias fields,
deduplicated). -/
def GraphClause.Bindings (cls : GraphClause) : List String :=
  setAddAll [] ([cls.SBinding, cls.SAlias, cls.STypeAlias, cls.SIDAlias,
    cls.PBinding, cls.PAlias, cls.PIDAlias, cls.PAnchorBinding, cls.PAnchorAlias,
    cls.PLowerBoundAlias, cls.PUpperBoundAlias,
    cls.OBinding, cls.OAlias, cls.OTypeAlias, cls.OIDAlias,
    cls.OAnchorBinding, cls.OAnchorAlias,
    cls.OLowerBoundAlias, cls.OUpperBoundAlias].filter (fun b => b ≠ ""))

/-- Embedding of planner `updateTimeBounds`.  The Go function tightens the
argument options in place (latest lower anchor, earliest upper anchor)
but returns the freshly allocated empty `nlo`.  The first component is
the mutated argument (the effect visible through the caller's pointer),
the second the returned value. -/
def updateTimeBounds (lo : LookupOptions) (cls : GraphClause) :
    LookupOptions × LookupOptions :=
  let lo1 := match cls.PLowerBound with
    | none => lo
    | some b =>
      match lo.LowerAnchor with
      | none => { lo with LowerAnchor := some b }
      | some la => if b > la then { lo with LowerAnchor := some b } else lo
  let lo2 := match cls.PUpperBound with
    | none => lo1
    | some b =>
      match lo1.UpperAnchor with
      | none => { lo1 with UpperAnchor := some b }
      | some ua => if b < ua then { lo1 with UpperAnchor := some b } else lo1
  (lo2, {})

/-- Lower-bound-alias block of `updateTimeBoundsForRow`: an aliased cell
present without a time component is an error; an absent cell makes the
Go code dereference a nil `*Cell` (fault). -/
def lowerRowBound (lo : LookupOptions) (a : String) (r : Row) : GoResult LookupOptions :=
  if a = "" then .ok lo
  else match Row.find r a with
    | none => .fault
    | some v =>
      match v.T with
      | none => .err "invalid time anchor value for bound"
      | some vt =>
        match lo.LowerAnchor with
        | none => .ok { lo with LowerAnchor := some vt }
        | some la => if vt > la then .ok { lo with LowerAnchor := some vt } else .ok lo

/-- Upper-bound-alias block of `updateTimeBoundsForRow`; the source
compares with `After` here (`>`), unlike the `Before` used for the upper
bound in `updateTimeBounds`. -/
def upperRowBound (lo : LookupOptions) (a : String) (r : Row) : GoResult LookupOptions :=
  if a = "" then .ok lo
  else match Row.find r a with
    | none => .fault
    | some v =>
      match v.T with
      | none => .err "invalid time anchor value for bound"
      | some vt =>
        match lo.UpperAnchor with
        | none => .ok { lo with UpperAnchor := some vt }
        | some ua => if vt > ua then .ok { lo with UpperAnchor := some vt } else .ok lo

/-- Embedding of planner `updateTimeBoundsForRow`: reassigns `lo` to the
value returned by `updateTimeBounds`, runs the two alias blocks, and
returns the value of a final `updateTimeBounds` call. -/
def updateTimeBoundsForRow (lo : LookupOptions) (cls : GraphClause) (r : Row) :
    GoResult LookupOptions :=
  let lo0 := (updateTimeBounds lo cls).2
  match lowerRowBound lo0 cls.PLowerBoundAlias r with
  | .err e => .err e
  | .fault => .fault
  | .ok lo1 =>
    match upperRowBound lo1 cls.PUpperBoundAlias r with
    | .err e => .err e
    | .fault => .fault
    | .ok lo2 => .ok (updateTimeBounds lo2 cls).2

/-- Embedding of planner `objectToCell`. -/
def objectToCell (o : Object) : Except String Cell :=
  match o with
  | .node n => .ok { N := some n }
  | .pred p => .ok { P := some p }
  | .lit l => .ok { L := some l }

/-- Intermediate state while `tripleToRow` writes its cells: the row and
the `bnd` map of `validBinding`, a silent drop, or an error. -/
inductive SlotSt where
  | cont (r : Row) (bnd : Row)
  | drop
  | err (e : String)
  deriving DecidableEq, Repr

/-- Embedding of `validBinding` inside `tripleToRow`: record the write in
`bnd` and report whether it is consistent (a first write, or deep-equal
to the previous one). -/
def validBinding (bnd : Row) (k : String) (v : Cell) : Row × Bool :=
  (Row.insert bnd k v,
   match Row.find bnd k with
   | none => true
   | some c => c == v)

/-- One guarded cell write of `tripleToRow`: skip when the clause field is
empty, otherwise compute the cell (errors propagate), store it in the row
and check `validBinding`, dropping the row on a conflict. -/
def slot (k : String) (mk : Except String Cell) (st : SlotSt) : SlotSt :=
  match st with
  | .cont r bnd =>
    if k = "" then .cont r bnd
    else match mk with
      | .error e => .err e
      | .ok c =>
        let r2 := Row.insert r k c
        let vb := validBinding bnd k c
        if vb.2 then .cont r2 vb.1 else .drop
  | s => s

/-- The `OIDAlias` write of `tripleToRow`.  In the node branch the source
stores the cell without running `validBinding` (and without recording the
write in `bnd`); the predicate branch checks as usual; a literal object
makes `o.Predicate()` fail. -/
def oidAliasSlot (k : String) (o : Object) (st : SlotSt) : SlotSt :=
  match st with
  | .cont r bnd =>
    if k = "" then .cont r bnd
    else match o with
      | .node n => .cont (Row.insert r k { S := n.id }) bnd
      | .pred p =>
        let c : Cell := { S := p.id }
        let r2 := Row.insert r k c
        let vb := validBinding bnd k c
        if vb.2 then .cont r2 vb.1 else .drop
      | .lit _ => .err "object is not a predicate"
  | s => s

/-- Time-anchor cell for the predicate slot: an error for a non-temporal
predicate, then `TimeAnchor` with its own error path. -/
def anchorCell (p : Predicate) : Except String Cell :=
  if p.ptype ≠ .Temporal then
    .error "cannot retrieve the time anchor value for non temporal predicate"
  else match p.TimeAnchor with
    | .error e => .error e
    | .ok t => .ok { T := some t }

/-- Type-alias cell of an object: requires a node. -/
def oTypeCell (o : Object) : Except String Cell :=
  match o.NodeVal with
  | .error e => .error e
  | .ok n => .ok { S := n.typ }

/-- Anchor cell of a predicate object: `o.Predicate()` then `TimeAnchor`,
each error propagating. -/
def oAnchorCell (o : Object) : Except String Cell :=
  match o.PredVal with
  | .error e => .error e
  | .ok p =>
    match p.TimeAnchor with
    | .error e => .error e
    | .ok ts => .ok { T := some ts }

/-- Subject-slot writes of `tripleToRow` (SBinding, SAlias, STypeAlias,
SIDAlias, in source order, innermost first). -/
def slotsS (s : Node) (cls : GraphClause) (st : SlotSt) : SlotSt :=
  slot cls.SIDAlias (.ok { S := s.id })
    (slot cls.STypeAlias (.ok { S := s.typ })
      (slot cls.SAlias (.ok { N := some s })
        (slot cls.SBinding (.ok { N := some s }) st)))

/-- Predicate-slot writes of `tripleToRow` (PBinding, PAlias, PIDAlias,
PAnchorBinding, PAnchorAlias). -/
def slotsP (p : Predicate) (cls : GraphClause) (st : SlotSt) : SlotSt :=
  slot cls.PAnchorAlias (anchorCell p)
    (slot cls.PAnchorBinding (anchorCell p)
      (slot cls.PIDAlias (.ok { S := p.id })
        (slot cls.PAlias (.ok { P := some p })
          (slot cls.PBinding (.ok { P := some p }) st))))

/-- Object-slot writes of `tripleToRow` (OBinding, OAlias, OTypeAlias,
OIDAlias, OAnchorBinding, OAnchorAlias). -/
def slotsO (o : Object) (cls : GraphClause) (st : SlotSt) : SlotSt :=
  slot cls.OAnchorAlias (oAnchorCell o)
    (slot cls.OAnchorBinding (oAnchorCell o)
      (oidAliasSlot cls.OIDAlias o
        (slot cls.OTypeAlias (oTypeCell o)
          (slot cls.OAlias (objectToCell o)
            (slot cls.OBinding (objectToCell o) st)))))

/-- Embedding of planner `tripleToRow`: the guarded writes in source
order, the silent drop on an inconsistent duplicate write, and the final
row (`.ok none` models the Go `nil, nil` drop). -/
def tripleToRow (t : Triple) (cls : GraphClause) : Except String (Option Row) :=
  match slotsO t.O cls (slotsP t.P cls (slotsS t.S cls (SlotSt.cont [] []))) with
  | .cont r _ => .ok (some r)
  | .drop => .ok none
  | .err e => .error e

/-- After test of an optional bound against an anchor (`b.After(ta)`). -/
def boundAfter : Option Int → Int → Bool
  | some b, ta => decide (b > ta)
  | none, _ => false

/-- Before test of an optional bound against an anchor (`b.Before(ta)`). -/
def boundBefore : Option Int → Int → Bool
  | some b, ta => decide (b < ta)
  | none, _ => false

/-- PID post-filter of `addTriples`: `true` keeps the triple. -/
def pidFilter (cls : GraphClause) (t : Triple) : Except String Bool :=
  if cls.PID = "" then .ok true
  else if t.P.id ≠ cls.PID then .ok false
  else if cls.PTemporal && t.P.ptype == .Temporal then
    match t.P.TimeAnchor with
    | .error _ => .error "failed to retrieve time anchor from time predicate"
    | .ok ta =>
      if boundAfter cls.PLowerBound ta then .ok false
      else if boundBefore cls.PUpperBound ta then .ok false
      else .ok true
  else .ok true

/-- OID post-filter of `addTriples`: only applies when the object is a
predicate. -/
def oidFilter (cls : GraphClause) (t : Triple) : Except String Bool :=
  if cls.OID = "" then .ok true
  else match t.O.PredVal with
    | .error _ => .ok true
    | .ok p =>
      if p.id ≠ cls.OID then .ok false
      else if cls.OTemporal && p.ptype == .Temporal then
        match p.TimeAnchor with
        | .error _ => .error "failed to retrieve time anchor from time predicate"
        | .ok ta =>
          if boundAfter cls.OLowerBound ta then .ok false
          else if boundBefore cls.OUpperBound ta then .ok false
          else .ok true
      else .ok true

/-- Embedding of planner `addTriples`: convert each triple to a row,
apply the id/temporal filters, silently skip dropped rows, and append the
rest to the table. -/
def addTriples : List Triple → GraphClause → Table → Except String Table
  | [], _, tbl => .ok tbl
  | t :: ts, cls, tbl =>
    match tripleToRow t cls with
    | .error e => .error e
    | .ok r =>
      match pidFilter cls t with
      | .error e => .error e
      | .ok false => addTriples ts cls tbl
      | .ok true =>
        match oidFilter cls t with
        | .error e => .error e
        | .ok false => addTriples ts cls tbl
        | .ok true =>
          match r with
          | some row => addTriples ts cls (tbl.AddRow row)
          | none => addTriples ts cls tbl

/-- The storage contract the planner consumes (spec section 4.B), with
the lazy channels of results as lists. -/
structure Graph where
  Exist : Triple → Except String Bool
  Objects : Node → Predicate → LookupOptions → Except String (List Object)
  PredicatesForSubjectAndObject :
    Node → Object → LookupOptions → Except String (List Predicate)
  Subjects : Predicate → Object → LookupOptions → Except String (List Node)
  TriplesForSubject : Node → LookupOptions → Except String (List Triple)
  TriplesForPredicate : Predicate → LookupOptions → Except String (List Triple)
  TriplesForObject : Object → LookupOptions → Except String (List Triple)
  Triples : Unit → Except String (List Triple)

/-- Per-graph fold of `simpleFetch`: run the branch body for each graph
in order, accumulating the table and propagating errors. -/
def fetchFold (step : Graph → Table → Except String Table) :
    List Graph → Table → Except String Table
  | [], tbl => .ok tbl
  | g :: gs, tbl =>
    match step g tbl with
    | .error e => .error e
    | .ok tbl2 => fetchFold step gs tbl2

/-- Embedding of planner `simpleFetch`: dispatch on which of S, P, O are
concrete, after replacing the lookup options with the value returned by
`updateTimeBounds` (the freshly allocated empty options).  `triple.New`
is modelled as the plain product constructor (per the spec a triple is a
product, so construction cannot fail here). -/
def simpleFetch (gs : List Graph) (cls : GraphClause) (lo : LookupOptions) :
    Except String Table :=
  let lo := (updateTimeBounds lo cls).2
  match Table.New cls.Bindings with
  | .error e => .error e
  | .ok tbl =>
    match cls.S, cls.P, cls.O with
    | some s, some p, some o =>
      fetchFold (fun g tbl =>
        match g.Exist ⟨s, p, o⟩ with
        | .error e => .error e
        | .ok true => addTriples [⟨s, p, o⟩] cls tbl
        | .ok false => .ok tbl) gs tbl
    | some s, some p, none =>
      fetchFold (fun g tbl =>
        match g.Objects s p lo with
        | .error e => .error e
        | .ok os => addTriples (os.map (fun o => ⟨s, p, o⟩)) cls tbl) gs tbl
    | some s, none, some o =>
      fetchFold (fun g tbl =>
        match g.PredicatesForSubjectAndObject s o lo with
        | .error e => .error e
        | .ok ps => addTriples (ps.map (fun p => ⟨s, p, o⟩)) cls tbl) gs tbl
    | none, some p, some o =>
      fetchFold (fun g tbl =>
        match g.Subjects p o lo with
        | .error e => .error e
        | .ok ss => addTriples (ss.map (fun s => ⟨s, p, o⟩)) cls tbl) gs tbl
    | some s, none, none =>
      fetchFold (fun g tbl =>
        match g.TriplesForSubject s lo with
        | .error e => .error e
        | .ok ts => addTriples ts cls tbl) gs tbl
    | none, some p, none =>
      fetchFold (fun g tbl =>
        match g.TriplesForPredicate p lo with
        | .error e => .error e
        | .ok ts => addTriples ts cls tbl) gs tbl
    | none, none, some o =>
      fetchFold (fun g tbl =>
        match g.TriplesForObject o lo with
        | .error e => .error e
        | .ok ts => addTriples ts cls tbl) gs tbl
    | none, none, none =>
      fetchFold (fun g tbl =>
        match g.Triples () with
        | .error e => .error e
        | .ok ts => addTriples ts cls tbl) gs tbl

/-! ## Shared concrete fixtures for the claims -/

/-- Sample node `/u<a>`. -/
def nA : Node := { typ := "/u", id := "a" }

/-- Sample node `/u<b>`. -/
def nB : Node := { typ := "/u", id := "b" }

/-- Sample immutable predicate used in the concrete evaluations. -/
def pImm : Predicate := { id := "p", anchor := none }

/-- Sample triple with a node object. -/
def tNode : Triple := { S := nA, P := pImm, O := .node nB }

/-- Test graph whose `Exist` answers membership in a fixed triple list
and whose enumerators are empty (an instance of the storage contract). -/
def existGraph (ts : List Triple) : Graph :=
  { Exist := fun t => .ok (ts.contains t),
    Objects := fun _ _ _ => .ok [],
    PredicatesForSubjectAndObject := fun _ _ _ => .ok [],
    Subjects := fun _ _ _ => .ok [],
    TriplesForSubject := fun _ _ => .ok [],
    TriplesForPredicate := fun _ _ => .ok [],
    TriplesForObject := fun _ _ => .ok [],
    Triples := fun _ => .ok [] }

/-- Test graph whose predicate enumerator yields a triple exactly when
the lookup options it receives are the empty (zero-valued) options, and
nothing under any other options. -/
def spyGraph : Graph :=
  { Exist := fun _ => .ok false,
    Objects := fun _ _ _ => .ok [],
    PredicatesForSubjectAndObject := fun _ _ _ => .ok [],
    Subjects := fun _ _ _ => .ok [],
    TriplesForSubject := fun _ _ => .ok [],
    TriplesForPredicate := fun _ lo => if lo = {} then .ok [tNode] else .ok [],
    TriplesForObject := fun _ _ => .ok [],
    Triples := fun _ => .ok [] }

/-! ## Claim C10: Table.Row and DeleteRow bounds handling -/

/-- C10: `Table.Row(i)` returns `(nil, false)` for every `i ≥ NumRows()`,
the i-th row with `true` for `0 ≤ i < NumRows()`, and, since the guard
does not cover negative indices, indexes out of bounds (panics) for every
`i < 0`; `DeleteRow` instead rejects both `i < 0` and `i ≥ NumRows()`
with an error and leaves the table unchanged. -/
theorem table_row_deleteRow_bounds (t : Table) (i : Int) :
    (i ≥ t.NumRows → t.RowAt i = .ok (none, false)) ∧
    (0 ≤ i → i < t.NumRows →
      t.RowAt i = .ok (t.data.get? i.toNat, true) ∧ (t.data.get? i.toNat).isSome) ∧
    (i < 0 → t.RowAt i = .fault) ∧
    ((i < 0 ∨ i ≥ t.NumRows) → (t.DeleteRow i).1 = t ∧ (t.DeleteRow i).2.isSome) ∧
    (0 ≤ i → i < t.NumRows → (t.DeleteRow i).2 = none) := by
  unfold Table.RowAt Table.DeleteRow Table.NumRows
  refine ⟨?_, ?_, ?_, ?_, ?_⟩
  · intro h
    rw [if_pos h]
  · intro h0 h1
    rw [if_neg (by omega), if_neg (by omega)]
    refine ⟨rfl, ?_⟩
    have hlt : i.toNat < t.data.length := by omega
    simp [List.getElem?_eq_getElem hlt]
  · intro h
    rw [if_neg (by omega), if_pos h]
  · intro h
    rw [if_pos (by omega)]
    exact ⟨rfl, rfl⟩
  · intro h0 h1
    rw [if_neg (by omega)]

/-- One-row table fixture for the witnesses. -/
def tW : Table := { bs := ["?a"], mbs := ["?a"], data := [[("?a", { S := "x" })]] }

/-- Concrete instantiation of `table_row_deleteRow_bounds` on a one-row
table at the indices -1, 0 and 7. -/
theorem table_row_deleteRow_bounds_witness :
    tW.RowAt (-1) = .fault ∧
    tW.RowAt 0 = .ok (some [("?a", { S := "x" })], true) ∧
    (tW.DeleteRow 7).1 = tW := by
  refine ⟨(table_row_deleteRow_bounds tW (-1)).2.2.1 (by decide), ?_, ?_⟩
  · have h := ((table_row_deleteRow_bounds tW 0).2.1 (by decide) (by decide)).1
    rw [h]
    rfl
  · exact ((table_row_deleteRow_bounds tW 7).2.2.2.1 (by decide)).1

/-! ## Claim C9: ToText serialization -/

/-- Rendering of one cell of a row per the spec: the cell's text, or
`<NULL>` when the binding is missing from the row. -/
def specCellText (r : Row) (b : String) : String :=
  match Row.find r b with
  | some c => Cell.render c
  | none => "<NULL>"

/-- The serialization the claim describes: binding names joined by `sep`,
a newline, then one line per row in row order, the cells in binding order
separated by `sep`, a missing or empty cell rendered `<NULL>`. -/
def specToText (t : Table) (sep : String) : String :=
  strJoin sep t.bs ++ "\n"
    ++ String.join (t.data.map (fun r =>
        strJoin sep (t.bs.map (specCellText r)) ++ "\n"))

/-- The amended serialization: identical, except that within row lines an
empty separator is replaced by a tab (the header keeps the empty
separator). -/
def specToTextAmended (t : Table) (sep : String) : String :=
  strJoin sep t.bs ++ "\n"
    ++ String.join (t.data.map (fun r =>
        strJoin (if sep = "" then "\t" else sep) (t.bs.map (specCellText r)) ++ "\n"))

theorem toTextLineAux_eq_strJoin (r : Row) (sep : String) (bs : List String) :
    toTextLineAux r sep bs = strJoin sep (bs.map (specCellText r)) := by
  induction bs with
  | nil => rfl
  | cons b rest ih =>
    cases rest with
    | nil => simp [toTextLineAux, strJoin, specCellText]
    | cons b2 rest2 =>
      simp only [toTextLineAux, List.length_cons, List.map_cons] at ih ⊢
      rw [ih]
      simp [strJoin, specCellText, String.append_assoc]

/-- Two-row table fixture whose serialization separates the claimed and
the actual `ToText`. -/
def tblC9 : Table :=
  { bs := ["?a", "?b"], mbs := ["?a", "?b"],
    data := [[("?a", { S := "x" }), ("?b", { S := "y" })]] }

/-- C9 counterexample: with the empty separator, `ToText` joins the
header with the empty separator but separates the row cells with a tab,
so the output differs from the claimed rendering (which would use the
empty separator throughout). -/
theorem toText_empty_sep_counterexample :
    Table.ToText tblC9 "" = "?a?b\nx\ty\n" ∧
    specToText tblC9 "" = "?a?b\nxy\n" ∧
    Table.ToText tblC9 "" ≠ specToText tblC9 "" := by
  refine ⟨by decide, by decide, by decide⟩

/-- C9 amended: for every table and separator, `ToText` succeeds and
returns the binding names joined by `sep`, a newline, then one line per
row in row order, the row's cells in binding order rendered `<NULL>` when
missing or empty — separated by `sep`, except that an empty `sep` is
replaced by a tab within the row lines. -/
theorem toText_spec_amended (t : Table) (sep : String) :
    t.ToText sep = specToTextAmended t sep := by
  unfold Table.ToText specToTextAmended
  congr 1
  congr 1
  congr 1
  funext r
  rw [Row.ToTextLine, toTextLineAux_eq_strJoin]

/-! ## Claim C8: binding uniqueness -/

theorem mem_setAdd {m : List String} {b x : String} :
    x ∈ setAdd m b ↔ x ∈ m ∨ x = b := by
  unfold setAdd
  split
  · rename_i hb
    constructor
    · exact Or.inl
    · rintro (h | rfl)
      · exact h
      · exact hb
  · simp

theorem nodup_setAdd {m : List String} {b : String} (h : m.Nodup) :
    (setAdd m b).Nodup := by
  unfold setAdd
  split
  · exact h
  · rename_i hb
    simp [List.nodup_append, h, hb]

theorem length_setAdd_le {m : List String} {b : String} :
    (setAdd m b).length ≤ m.length + 1 := by
  unfold setAdd
  split
  · omega
  · simp

theorem nodup_setAddAll (bs : List String) :
    ∀ m : List String, m.Nodup → (setAddAll m bs).Nodup := by
  induction bs with
  | nil => intro m h; exact h
  | cons b bs ih => intro m h; exact ih _ (nodup_setAdd h)

theorem mem_setAddAll (bs : List String) :
    ∀ (m : List String) (x : String), x ∈ setAddAll m bs ↔ x ∈ m ∨ x ∈ bs := by
  induction bs with
  | nil => intro m x; simp [setAddAll]
  | cons b bs ih =>
    intro m x
    rw [setAddAll, ih, mem_setAdd]
    simp [or_assoc]

theorem setAddAll_length_le (bs : List String) :
    ∀ m : List String, (setAddAll m bs).length ≤ m.length + bs.length := by
  induction bs with
  | nil => intro m; simp [setAddAll]
  | cons b bs ih =>
    intro m
    rw [setAddAll]
    have h1 := ih (setAdd m b)
    have h2 := length_setAdd_le (m := m) (b := b)
    simp only [List.length_cons]
    omega

theorem setAddAll_length_eq_iff (bs : List String) :
    ∀ m : List String, m.Nodup →
      ((setAddAll m bs).length = m.length + bs.length ↔
        bs.Nodup ∧ ∀ b ∈ bs, b ∉ m) := by
  induction bs with
  | nil => intro m h; simp [setAddAll]
  | cons b bs ih =>
    intro m hm
    rw [setAddAll]
    by_cases hb : b ∈ m
    · have hsa : setAdd m b = m := by simp [setAdd, hb]
      rw [hsa]
      have hle := setAddAll_length_le bs m
      constructor
      · intro h
        simp only [List.length_cons] at h
        omega
      · rintro ⟨_, hall⟩
        exact absurd hb (hall b (by simp))
    · have hsa : setAdd m b = m ++ [b] := by simp [setAdd, hb]
      have hnd : (m ++ [b]).Nodup := by
        have := nodup_setAdd (b := b) hm
        rwa [hsa] at this
      rw [hsa]
      have harith : m.length + (b :: bs).length = (m ++ [b]).length + bs.length := by
        simp
        omega
      rw [harith, ih (m ++ [b]) hnd]
      constructor
      · rintro ⟨hbs, hall⟩
        have hbnotbs : b ∉ bs := by
          intro hmem
          have h' := hall b hmem
          simp only [List.mem_append, List.mem_singleton, not_or] at h'
          exact h'.2 trivial
        refine ⟨List.nodup_cons.mpr ⟨hbnotbs, hbs⟩, ?_⟩
        intro x hx
        rcases List.mem_cons.mp hx with rfl | hx2
        · exact hb
        · have h' := hall x hx2
          simp only [List.mem_append, List.mem_singleton, not_or] at h'
          exact h'.1
      · rintro ⟨hbbs, hall⟩
        obtain ⟨hbnotbs, hbs⟩ := List.nodup_cons.mp hbbs
        refine ⟨hbs, ?_⟩
        intro x hx
        simp only [List.mem_append, List.mem_singleton]
        push_neg
        refine ⟨hall x (by simp [hx]), ?_⟩
        rintro rfl
        exact hbnotbs hx

/-- Well-formedness of a table's binding structure: the binding list is
duplicate-free and the presence set tracks exactly its members. -/
def TableWF (t : Table) : Prop :=
  t.bs.Nodup ∧ t.mbs.Nodup ∧ ∀ b, b ∈ t.mbs ↔ b ∈ t.bs

theorem New_wf {bs : List String} {tbl : Table} (h : Table.New bs = .ok tbl) :
    TableWF tbl ∧ tbl.bs = bs := by
  simp only [Table.New] at h
  split at h
  · cases h
  · rename_i hlen
    cases h
    have hnodup : bs.Nodup := by
      have := (setAddAll_length_eq_iff bs [] List.nodup_nil).mp (by simpa using not_ne_iff.mp hlen)
      exact this.1
    refine ⟨⟨hnodup, nodup_setAddAll bs [] List.nodup_nil, ?_⟩, rfl⟩
    intro b
    rw [mem_setAddAll]
    simp

theorem New_ok_iff (bs : List String) :
    (∃ tbl, Table.New bs = .ok tbl) ↔ bs.Nodup := by
  constructor
  · rintro ⟨tbl, h⟩
    exact (New_wf h).2 ▸ ((New_wf h).1).1
  · intro h
    have hlen : (setAddAll [] bs).length = bs.length := by
      have := (setAddAll_length_eq_iff bs [] List.nodup_nil).mpr ⟨h, by simp⟩
      simpa using this
    refine ⟨{ bs := bs, mbs := setAddAll [] bs, data := [] }, ?_⟩
    simp only [Table.New]
    rw [if_neg (by simp [hlen])]

theorem addBindings_wf (bs2 : List String) :
    ∀ t : Table, TableWF t → TableWF (t.AddBindings bs2) := by
  induction bs2 with
  | nil => intro t h; exact h
  | cons b rest ih =>
    intro t h
    rw [Table.AddBindings]
    by_cases hb : b ∈ t.mbs
    · rw [if_pos hb]
      exact ih t h
    · rw [if_neg hb]
      apply ih
      obtain ⟨h1, h2, h3⟩ := h
      have hbbs : b ∉ t.bs := fun hmem => hb ((h3 b).mpr hmem)
      refine ⟨?_, ?_, ?_⟩
      · simp [List.nodup_append, h1, hbbs]
      · simp [List.nodup_append, h2, hb]
      · intro x
        simp only [List.mem_append, List.mem_singleton]
        rw [h3 x]

theorem addBindings_skip (bs2 : List String) :
    ∀ t : Table, (∀ b ∈ bs2, b ∈ t.mbs) → t.AddBindings bs2 = t := by
  induction bs2 with
  | nil => intro t _; rfl
  | cons b rest ih =>
    intro t h
    rw [Table.AddBindings, if_pos (h b (by simp))]
    exact ih t (fun x hx => h x (by simp [hx]))

theorem appendTable_nodup {t t2 u : Table} (h1 : TableWF t) (h2 : TableWF t2)
    (h : t.AppendTable t2 = .ok u) : u.bs.Nodup := by
  simp only [Table.AppendTable] at h
  split at h
  · cases h
  · cases h
    by_cases hlen : t.Bindings.length = 0
    · simp [hlen, h2.1]
    · simp [hlen, h1.1]

theorem dotProduct_nodup {t t2 u : Table} (h : t.DotProduct t2 = .ok u) :
    u.bs.Nodup := by
  simp only [Table.DotProduct] at h
  split at h
  · cases h
  · cases h
    exact nodup_setAddAll t2.mbs _ (nodup_setAddAll t.mbs [] List.nodup_nil)

/-- C8: `New(bs)` fails iff `bs` contains a repeated name, and the
binding list of every table stays duplicate-free under the
binding-modifying operations: `New` establishes `TableWF`, `AddBindings`
preserves it (silently ignoring names already present), and a successful
`AppendTable` or `DotProduct` yields a duplicate-free binding list. -/
theorem table_bindings_unique :
    (∀ bs : List String, (∃ tbl, Table.New bs = .ok tbl) ↔ bs.Nodup) ∧
    (∀ (bs : List String) (tbl : Table), Table.New bs = .ok tbl → TableWF tbl) ∧
    (∀ (t : Table) (bs2 : List String), TableWF t →
      TableWF (t.AddBindings bs2) ∧ (t.AddBindings bs2).bs.Nodup) ∧
    (∀ (t : Table) (bs2 : List String), (∀ b ∈ bs2, b ∈ t.mbs) →
      t.AddBindings bs2 = t) ∧
    (∀ t t2 u : Table, TableWF t → TableWF t2 → t.AppendTable t2 = .ok u →
      u.bs.Nodup) ∧
    (∀ t t2 u : Table, t.DotProduct t2 = .ok u → u.bs.Nodup) := by
  refine ⟨New_ok_iff, ?_, ?_, ?_, ?_, ?_⟩
  · intro bs tbl h
    exact (New_wf h).1
  · intro t bs2 h
    exact ⟨addBindings_wf bs2 t h, (addBindings_wf bs2 t h).1⟩
  · intro t bs2 h
    exact addBindings_skip bs2 t h
  · intro t t2 u h1 h2 h
    exact appendTable_nodup h1 h2 h
  · intro t t2 u h
    exact dotProduct_nodup h

/-- Concrete instantiation of `table_bindings_unique`: duplicate names
are rejected, fresh names are accepted, and adding an existing binding is
a no-op. -/
theorem table_bindings_unique_witness :
    (["?a", "?a"] : List String).Nodup = False ∧
    ¬ (∃ tbl, Table.New ["?a", "?a"] = .ok tbl) ∧
    (∃ tbl, Table.New ["?a", "?b"] = .ok tbl) ∧
    tW.AddBindings ["?a"] = tW := by
  refine ⟨by decide, ?_, ?_, ?_⟩
  · intro h
    exact (by decide : ¬ (["?a", "?a"] : List String).Nodup)
      ((table_bindings_unique.1 ["?a", "?a"]).mp h)
  · exact (table_bindings_unique.1 ["?a", "?b"]).mpr (by decide)
  · exact (table_bindings_unique.2.2.2.1) tW ["?a"] (by decide)

/-! ## Claim C5: DotProduct -/

theorem find_insert_self (r : Row) (k : String) (v : Cell) :
    Row.find (Row.insert r k v) k = some v := by
  induction r with
  | nil => simp [Row.insert, Row.find]
  | cons kv r ih =>
    obtain ⟨k0, v0⟩ := kv
    by_cases h : k0 = k
    · subst h
      simp [Row.insert, Row.find]
    · simp [Row.insert, Row.find, h, ih]

theorem find_insert_ne (r : Row) {k k2 : String} (v : Cell) (h : k ≠ k2) :
    Row.find (Row.insert r k v) k2 = Row.find r k2 := by
  induction r with
  | nil => simp [Row.insert, Row.find, h]
  | cons kv r ih =>
    obtain ⟨k0, v0⟩ := kv
    by_cases h0 : k0 = k
    · subst h0
      simp [Row.insert, Row.find, h]
    · simp [Row.insert, Row.find, h0, ih]

/-- Key list of a row; the Go map cannot repeat keys, so rows built by
the engine have duplicate-free key lists. -/
def rowKeys (r : Row) : List String := r.map Prod.fst

theorem find_eq_none_of_not_mem {r : Row} {k : String} (h : k ∉ rowKeys r) :
    Row.find r k = none := by
  induction r with
  | nil => rfl
  | cons kv r ih =>
    obtain ⟨k0, v0⟩ := kv
    simp only [rowKeys, List.map_cons, List.mem_cons, not_or] at h
    have hne : k0 ≠ k := fun hh => h.1 hh.symm
    simp only [Row.find]
    rw [if_neg hne]
    exact ih (by simpa [rowKeys] using h.2)

/-- Fold of inserts over a row on top of a base row, the inner loop of
`MergeRows`. -/
def insertAll (base : Row) (r : Row) : Row :=
  r.foldl (fun res kv => Row.insert res kv.1 kv.2) base

theorem find_insertAll (r : Row) (hw : (rowKeys r).Nodup) :
    ∀ (base : Row) (k : String),
      Row.find (insertAll base r) k
        = (match Row.find r k with
           | some v => some v
           | none => Row.find base k) := by
  induction r with
  | nil => intro base k; simp [insertAll, Row.find]
  | cons kv r ih =>
    obtain ⟨k0, v0⟩ := kv
    intro base k
    have hw2 : (rowKeys r).Nodup := (List.nodup_cons.mp hw).2
    have hk0 : k0 ∉ rowKeys r := (List.nodup_cons.mp hw).1
    rw [show insertAll base ((k0, v0) :: r) = insertAll (Row.insert base k0 v0) r from rfl]
    rw [ih hw2 _ k]
    by_cases h : k0 = k
    · subst h
      rw [find_eq_none_of_not_mem hk0]
      simp [Row.find, find_insert_self]
    · cases hf : Row.find r k <;>
        simp [Row.find, h, hf, find_insert_ne base v0 h]

theorem find_mergeRows (r1 r2 : Row) (h1 : (rowKeys r1).Nodup)
    (h2 : (rowKeys r2).Nodup) (k : String) :
    Row.find (MergeRows [r1, r2]) k
      = (match Row.find r2 k with
         | some v => some v
         | none => Row.find r1 k) := by
  rw [show MergeRows [r1, r2] = insertAll (insertAll [] r1) r2 from rfl]
  rw [find_insertAll r2 h2]
  cases hf : Row.find r2 k
  · simp only []
    rw [find_insertAll r1 h1]
    cases hf1 : Row.find r1 k <;> simp [Row.find]
  · simp

theorem flatMap_const_length {α β : Type} (f : α → List β) (n : Nat)
    (hf : ∀ x, (f x).length = n) :
    ∀ xs : List α, (xs.flatMap f).length = xs.length * n := by
  intro xs
  induction xs with
  | nil => simp
  | cons x xs ih =>
    simp only [List.flatMap_cons, List.length_append, hf, ih, List.length_cons]
    ring

theorem flatMap_const_get? {α β : Type} (f : α → List β) (n : Nat)
    (hf : ∀ x, (f x).length = n) (d : α) :
    ∀ (xs : List α) (i j : Nat), i < xs.length → j < n →
      (xs.flatMap f).get? (i * n + j) = (f (xs.getD i d)).get? j := by
  intro xs
  induction xs with
  | nil => intro i j hi _; simp at hi
  | cons x xs ih =>
    intro i j hi hj
    cases i with
    | zero =>
      simp only [List.flatMap_cons, Nat.zero_mul, Nat.zero_add]
      rw [List.get?_append (by rw [hf]; exact hj)]
      simp [List.getD]
    | succ i =>
      simp only [List.flatMap_cons]
      have hmul : (i + 1) * n = i * n + n := by ring
      rw [List.get?_append_right (by rw [hf]; omega)]
      rw [hf]
      have hidx : (i + 1) * n + j - n = i * n + j := by omega
      rw [hidx, ih i j (by simpa using hi) hj]
      simp [List.getD]

/-- C5: `DotProduct` succeeds iff the binding sets are disjoint; on
success it replaces the rows with the key-wise unions of each row of A
with each row of B (the second operand winning shared keys), giving
|A| times |B| rows, whence the dot product is commutative and associative
in cardinality. -/
theorem dotProduct_correct :
    (∀ t t2 : Table, (∃ u, t.DotProduct t2 = .ok u) ↔ (∀ k ∈ t.mbs, k ∉ t2.mbs)) ∧
    (∀ t t2 u : Table, t.DotProduct t2 = .ok u →
      u.data.length = t.data.length * t2.data.length) ∧
    (∀ t t2 u : Table, t.DotProduct t2 = .ok u →
      ∀ i j : Nat, i < t.data.length → j < t2.data.length →
        u.data.get? (i * t2.data.length + j)
          = some (MergeRows [t.data.getD i [], t2.data.getD j []])) ∧
    (∀ (r1 r2 : Row) (k : String), (rowKeys r1).Nodup → (rowKeys r2).Nodup →
      Row.find (MergeRows [r1, r2]) k
        = (match Row.find r2 k with
           | some v => some v
           | none => Row.find r1 k)) ∧
    (∀ tA tB u v : Table, tA.DotProduct tB = .ok u → tB.DotProduct tA = .ok v →
      u.data.length = v.data.length) ∧
    (∀ tA tB tC u w v w2 : Table,
      tA.DotProduct tB = .ok u → u.DotProduct tC = .ok w →
      tB.DotProduct tC = .ok v → tA.DotProduct v = .ok w2 →
      w.data.length = w2.data.length) := by
  have hdis : ∀ t t2 : Table,
      disjointBinding t.mbs t2.mbs = true ↔ (∀ k ∈ t.mbs, k ∉ t2.mbs) := by
    intro t t2
    simp [disjointBinding, List.all_eq_true, List.contains]
  have hdata : ∀ t t2 u : Table, t.DotProduct t2 = .ok u →
      u.data = t.data.flatMap (fun r1 => t2.data.map (fun r2 => MergeRows [r1, r2])) := by
    intro t t2 u h
    simp only [Table.DotProduct] at h
    split at h
    · cases h
    · cases h
      rfl
  have hlen : ∀ t t2 u : Table, t.DotProduct t2 = .ok u →
      u.data.length = t.data.length * t2.data.length := by
    intro t t2 u h
    rw [hdata t t2 u h]
    exact flatMap_const_length _ t2.data.length (fun r1 => by simp) t.data
  refine ⟨?_, hlen, ?_, ?_, ?_, ?_⟩
  · intro t t2
    constructor
    · rintro ⟨u, h⟩
      simp only [Table.DotProduct] at h
      split at h
      · cases h
      · rename_i hcond
        rw [← hdis t t2]
        simpa using hcond
    · intro h
      refine ⟨{ bs := setAddAll (setAddAll [] t.mbs) t2.mbs,
                mbs := setAddAll (setAddAll [] t.mbs) t2.mbs,
                data := t.data.flatMap
                  (fun r1 => t2.data.map (fun r2 => MergeRows [r1, r2])) }, ?_⟩
      simp only [Table.DotProduct]
      rw [if_neg (by simp [(hdis t t2).mpr h])]
  · intro t t2 u h i j hi hj
    rw [hdata t t2 u h]
    rw [flatMap_const_get? _ t2.data.length (fun r1 => by simp) [] t.data i j hi hj]
    rw [List.get?_map]
    cases hg : t2.data.get? j with
    | none =>
      exact absurd (List.get?_eq_none.mp hg) (by omega)
    | some a =>
      rw [List.get?_eq_getElem?] at hg
      simp [hg]
  · intro r1 r2 k h1 h2
    exact find_mergeRows r1 r2 h1 h2 k
  · intro tA tB u v hu hv
    rw [hlen _ _ _ hu, hlen _ _ _ hv, Nat.mul_comm]
  · intro tA tB tC u w v w2 hu hw hv hw2
    rw [hlen _ _ _ hw, hlen _ _ _ hu, hlen _ _ _ hw2, hlen _ _ _ hv, Nat.mul_assoc]

/-- Two-row table over the binding `?x`. -/
def tA5 : Table :=
  { bs := ["?x"], mbs := ["?x"],
    data := [[("?x", { S := "1" })], [("?x", { S := "2" })]] }

/-- Three-row table over the binding `?y`. -/
def tB5 : Table :=
  { bs := ["?y"], mbs := ["?y"],
    data := [[("?y", { S := "a" })], [("?y", { S := "b" })], [("?y", { S := "c" })]] }

/-- The dot product of the two fixtures. -/
def tU5 : Table :=
  match tA5.DotProduct tB5 with
  | .ok u => u
  | .error _ => tA5

/-- Concrete instantiation of `dotProduct_correct`: the 2-row and 3-row
fixtures produce 6 rows, succeed (disjoint bindings), and the merged row
carries both cells. -/
theorem dotProduct_correct_witness :
    tU5.data.length = tA5.data.length * tB5.data.length ∧
    (∃ u, tA5.DotProduct tB5 = .ok u) ∧
    tU5.data.get? 0 = some (MergeRows [[("?x", { S := "1" })], [("?y", { S := "a" })]]) := by
  refine ⟨dotProduct_correct.2.1 tA5 tB5 tU5 (by rfl),
    (dotProduct_correct.1 tA5 tB5).mpr (by decide), ?_⟩
  have h := dotProduct_correct.2.2.1 tA5 tB5 tU5 (by rfl) 0 0 (by decide) (by decide)
  simpa using h

/-! ## Claim C1: time-bound fusion before the simpleFetch dispatch -/

/-- Clause fixture for C1: concrete P with a per-clause lower bound. -/
def clsC1 : GraphClause := { P := some pImm, PLowerBound := some 5 }

/-- Options fixture for C1: an incoming lower anchor older than the
clause bound. -/
def loC1 : LookupOptions := { LowerAnchor := some 3 }

/-- C1, evaluated at the failing input: `updateTimeBounds` computes the
monotone tightening (latest lower anchor, here 5) only into the argument
options, and returns the untouched fresh `nlo`; `simpleFetch` rebinds
`lo` to that empty value, so the storage lookup runs with no anchors at
all.  The spy graph yields its triple only under the empty options, and
would yield nothing under the options the claim says are used, so the
one-row result shows the storage call received the empty options. -/
theorem simpleFetch_drops_tightened_bounds :
    (updateTimeBounds loC1 clsC1).1.LowerAnchor = some 5 ∧
    (updateTimeBounds loC1 clsC1).2 = ({} : LookupOptions) ∧
    (simpleFetch [spyGraph] clsC1 loC1).map Table.NumRows = .ok 1 ∧
    spyGraph.TriplesForPredicate pImm { LowerAnchor := some 5 } = .ok [] := by
  refine ⟨rfl, rfl, rfl, rfl⟩

/-! ## Claim C2: per-row time-bound fusion -/

/-- Clause fixture for C2: a lower-bound alias. -/
def clsC2 : GraphClause := { PLowerBoundAlias := "?lb" }

/-- Row fixture for C2: the aliased cell carries the time anchor 5. -/
def rC2 : Row := [("?lb", { T := some 5 })]

/-- C2, evaluated at the failing input: although the row carries the
anchor 5 under the aliased binding, `updateTimeBoundsForRow` returns the
options produced by the final `updateTimeBounds` call — the fresh empty
`nlo` — so no tightening reaches the caller.  The error conjunct checks
the one part of the claim the code does honour: a bound-alias cell
present without a time component is an error. -/
theorem updateTimeBoundsForRow_returns_empty :
    Row.find rC2 "?lb" = some { T := some 5 } ∧
    updateTimeBoundsForRow {} clsC2 rC2 = .ok ({} : LookupOptions) ∧
    ({} : LookupOptions).LowerAnchor = none ∧
    updateTimeBoundsForRow {} clsC2 [("?lb", { S := "x" })]
      = .err "invalid time anchor value for bound" := by
  refine ⟨rfl, rfl, rfl, rfl⟩

/-! ## Claim C3: silent drop of inconsistent duplicate writes -/

/-- Clause fixture for C3: the subject id alias and the object id alias
share the variable `?x`. -/
def clsC3 : GraphClause := { SIDAlias := "?x", OIDAlias := "?x" }

/-- Empty table over `?x` for the C3 emission check. -/
def tblC3 : Table := { bs := ["?x"], mbs := ["?x"], data := [] }

/-- C3, evaluated at the failing input: the clause writes `?x` twice with
unequal cells (the subject id cell `a` from SIDAlias, then the object id
cell `b` from OIDAlias), yet `tripleToRow` returns a row — the OIDAlias
node branch skips the `validBinding` check — and `addTriples` emits it,
where the claim requires a silent drop (no row, no emission). -/
theorem tripleToRow_oidAlias_skips_check :
    clsC3.SIDAlias = "?x" ∧
    clsC3.OIDAlias = "?x" ∧
    ({ S := "a" } : Cell) ≠ ({ S := "b" } : Cell) ∧
    tripleToRow tNode clsC3 = .ok (some [("?x", { S := "b" })]) ∧
    (addTriples [tNode] clsC3 tblC3).map Table.NumRows = .ok 1 := by
  refine ⟨rfl, rfl, by decide, rfl, rfl⟩

/-! ## Claim C4: the fully qualified lookup shape -/

/-- Clause fixture for the C4 counterexample: concrete S, P and O, plus a
type alias and an id alias on the subject that share the variable `?x`
and write unequal strings. -/
def clsC4 : GraphClause :=
  { S := some nA, P := some pImm, O := some (.node nB),
    STypeAlias := "?x", SIDAlias := "?x" }

/-- C4 counterexample: the triple is in the graph (`Exist` answers true),
S, P and O are all concrete, yet `simpleFetch` returns zero rows — the
synthesized row writes `?x` twice with unequal values and is silently
dropped — where the claim promises exactly one row. -/
theorem simpleFetch_concrete_alias_conflict :
    (existGraph [tNode]).Exist tNode = .ok true ∧
    clsC4.S = some tNode.S ∧ clsC4.P = some tNode.P ∧ clsC4.O = some tNode.O ∧
    (simpleFetch [existGraph [tNode]] clsC4 {}).map Table.NumRows = .ok 0 := by
  refine ⟨rfl, rfl, rfl, rfl, rfl⟩

/-- C4 amended: for a graph clause whose only populated slots are
concrete S, P and O (no aliases, bindings, filters or bounds) and every
single graph, `simpleFetch` consults `Exist` on the triple (S, P, O) and
returns a table with exactly one row when the triple is in the graph,
zero rows otherwise (and propagates an `Exist` error). -/
theorem simpleFetch_fully_bound (g : Graph) (s : Node) (p : Predicate) (o : Object)
    (lo : LookupOptions) :
    (simpleFetch [g] { S := some s, P := some p, O := some o } lo).map Table.NumRows
      = (g.Exist ⟨s, p, o⟩).map (fun b => if b then 1 else 0) := by
  have h1 : simpleFetch [g] { S := some s, P := some p, O := some o } lo
      = (match g.Exist ⟨s, p, o⟩ with
         | .error e => .error e
         | .ok true => .ok { bs := [], mbs := [], data := [([] : Row)] }
         | .ok false => .ok { bs := [], mbs := [], data := [] }) := by
    cases hx : g.Exist ⟨s, p, o⟩ with
    | error e =>
      unfold simpleFetch fetchFold
      rw [show Table.New
        (GraphClause.Bindings { S := some s, P := some p, O := some o })
          = .ok { bs := [], mbs := [], data := [] } from rfl]
      rw [hx]
    | ok b =>
      unfold simpleFetch fetchFold
      rw [show Table.New
        (GraphClause.Bindings { S := some s, P := some p, O := some o })
          = .ok { bs := [], mbs := [], data := [] } from rfl]
      rw [hx]
      cases b
      · rfl
      · rfl
  rw [h1]
  cases hx : g.Exist ⟨s, p, o⟩ with
  | error e => rfl
  | ok b => cases b <;> rfl

/-! ## Claim C7: temporal operations on immutable predicates -/

/-- Whether a `tripleToRow` slot state still carries a live row. -/
def SlotSt.isCont : SlotSt → Bool
  | .cont _ _ => true
  | _ => false

theorem slot_of_isCont_false {st : SlotSt} (h : st.isCont = false)
    (k : String) (mk : Except String Cell) : slot k mk st = st := by
  cases st with
  | cont r bnd => simp [SlotSt.isCont] at h
  | drop => rfl
  | err e => rfl

theorem slot_mono {st : SlotSt} {k : String} {mk : Except String Cell}
    (h : st.isCont = false) : (slot k mk st).isCont = false := by
  rw [slot_of_isCont_false h]
  exact h

theorem oidAliasSlot_mono {st : SlotSt} {k : String} {o : Object}
    (h : st.isCont = false) : (oidAliasSlot k o st).isCont = false := by
  cases st with
  | cont r bnd => simp [SlotSt.isCont] at h
  | drop => exact h
  | err e => exact h

theorem slot_err_isCont_false {k : String} (hk : k ≠ "") (e : String)
    (st : SlotSt) : (slot k (.error e) st).isCont = false := by
  cases st with
  | cont r bnd => simp [slot, hk, SlotSt.isCont]
  | drop => rfl
  | err e2 => rfl

theorem anchorCell_immutable {p : Predicate} (h : p.ptype = .Immutable) :
    anchorCell p
      = .error "cannot retrieve the time anchor value for non temporal predicate" := by
  unfold anchorCell
  rw [if_pos (by simp [h])]

theorem slotsP_kills (p : Predicate) (cls : GraphClause) (st : SlotSt)
    (hg : cls.PAnchorBinding ≠ "" ∨ cls.PAnchorAlias ≠ "")
    (him : p.ptype = .Immutable) : (slotsP p cls st).isCont = false := by
  unfold slotsP
  rw [anchorCell_immutable him]
  rcases hg with hb | ha
  · exact slot_mono (slot_err_isCont_false hb _ _)
  · exact slot_err_isCont_false ha _ _

theorem slotsO_mono (o : Object) (cls : GraphClause) {st : SlotSt}
    (h : st.isCont = false) : (slotsO o cls st).isCont = false := by
  unfold slotsO
  exact slot_mono (slot_mono (oidAliasSlot_mono (slot_mono (slot_mono (slot_mono h)))))

/-- Clause fixture for the C7 counterexample: SBinding and SIDAlias share
the variable `?x` (whose two cells are always unequal: a node cell and a
string cell), plus an anchor binding on the predicate slot. -/
def clsC7 : GraphClause := { SBinding := "?x", SIDAlias := "?x", PAnchorBinding := "?a" }

/-- C7 counterexample: the clause carries an anchor binding for the
predicate slot and the triple's predicate is immutable, yet `tripleToRow`
returns no error: the duplicate write of `?x` silently drops the row
before the anchor slot is reached, where the claim requires an error. -/
theorem tripleToRow_drop_shadows_anchor_error :
    clsC7.PAnchorBinding ≠ "" ∧
    tNode.P.ptype = .Immutable ∧
    tripleToRow tNode clsC7 = .ok none := by
  refine ⟨by decide, by decide, rfl⟩

/-- C7 amended: `Predicate.TimeAnchor` returns an error iff the predicate
is immutable; and whenever the clause carries an anchor binding or anchor
alias for the predicate slot and the triple's predicate is immutable,
`tripleToRow` never yields a row — it returns an error, except when an
earlier inconsistent duplicate write already dropped the row silently. -/
theorem timeAnchor_immutable_spec :
    (∀ p : Predicate, (∃ e, p.TimeAnchor = .error e) ↔ p.ptype = .Immutable) ∧
    (∀ (t : Triple) (cls : GraphClause),
      cls.PAnchorBinding ≠ "" ∨ cls.PAnchorAlias ≠ "" → t.P.ptype = .Immutable →
      tripleToRow t cls = .ok none ∨ ∃ e, tripleToRow t cls = .error e) := by
  constructor
  · intro p
    cases hp : p.anchor <;>
      simp [Predicate.TimeAnchor, Predicate.ptype, hp]
  · intro t cls hg him
    have hk : (slotsO t.O cls (slotsP t.P cls (slotsS t.S cls (SlotSt.cont [] [])))).isCont
        = false :=
      slotsO_mono _ _ (slotsP_kills _ _ _ hg him)
    cases hres : slotsO t.O cls (slotsP t.P cls (slotsS t.S cls (SlotSt.cont [] []))) with
    | cont r bnd =>
      rw [hres] at hk
      simp [SlotSt.isCont] at hk
    | drop =>
      refine Or.inl ?_
      unfold tripleToRow
      rw [hres]
    | err e =>
      refine Or.inr ⟨e, ?_⟩
      unfold tripleToRow
      rw [hres]

/-- Concrete instantiation of `timeAnchor_immutable_spec`: an anchor
alias with an immutable predicate yields no row, and the immutable
fixture predicate has no retrievable time anchor. -/
theorem timeAnchor_immutable_spec_witness :
    (tripleToRow tNode { PAnchorAlias := "?a" } = .ok none ∨
      ∃ e, tripleToRow tNode { PAnchorAlias := "?a" } = .error e) ∧
    ((∃ e, pImm.TimeAnchor = .error e) ↔ pImm.ptype = .Immutable) :=
  ⟨timeAnchor_immutable_spec.2 tNode { PAnchorAlias := "?a" }
      (Or.inr (by decide)) (by decide),
   timeAnchor_immutable_spec.1 pImm⟩

/-! ## Claim C6: Parse composed with String on predicates -/

/-- Predicate fixture whose id contains a double quote. -/
def pQuote : Predicate := { id := "a\"b", anchor := none }

/-- C6 counterexample: for a predicate id containing a double quote, the
`%q` quoting of `String` escapes it, `Parse` does not unescape, and the
round trip yields a different predicate (id `a\"b` comes back as
`a\\"b`), so `Parse` after `String` is not the identity. -/
theorem Predicate_Parse_render_quote :
    Predicate.Parse (Predicate.render pQuote) = .ok { id := "a\\\"b", anchor := none } ∧
    ({ id := "a\\\"b", anchor := none } : Predicate) ≠ pQuote := by
  refine ⟨rfl, by decide⟩

/-- Concrete instantiation of `Predicate_Parse_render` on the immutable
predicate with id `foo`. -/
theorem Predicate_Parse_render_witness :
    Predicate.Parse (Predicate.render { id := "foo", anchor := none })
      = .ok { id := "foo", anchor := none } :=
  Predicate_Parse_render { id := "foo", anchor := none } ⟨by decide, by decide⟩

end BadWolf
